import Mathlib

/-
Verification development for tree/ntupleutil/v7/src/RNTupleImporter.cxx.

The development shallowly embeds the importer: TTree-side metadata (branches,
leaves) becomes plain structures, the schema preparation pass becomes a pure
function returning Except, and the per-record import loop becomes a pure
function that also produces a trace of the destination-affecting events
(sink/writer creation, per-record reads, transformations, nested and top-level
record submissions, progress notifications).

External collaborators (TFile, RFieldBase::Create, TClass lookup) are modelled
as oracle functions bundled in an environment, since their behavior is out of
scope for the importer itself.

A note on error propagation: RResult carries a destructor that raises an
exception whenever a result holding an error is destroyed unchecked.  The
importer discards the results of SetupDestination (in Create) and of
PrepareSchema (in Import); by the RResult contract the error then escapes at
exactly that statement.  In this embedding both a returned failure and such an
escaping error are the Except.error outcome.
-/

namespace RNTupleImporter

/-- Runtime class of a TLeaf, as tested via IsA() in PrepareSchema.
leafC is a character-array leaf, leafElement an STL or user class leaf,
leafObject a TObject-derived leaf, plain any other (numeric) leaf class. -/
inductive LeafKind where
  | leafC
  | leafElement
  | leafObject
  | plain
  deriving DecidableEq

/-- Metadata of one TLeaf as consumed by PrepareSchema: name, declared type
name, runtime class, the IsRange flag, the result of GetLeafCounter (the
counter leaf name if any, plus the countval output parameter), GetOffset and
GetMaximum. -/
structure TLeaf where
  name : String
  typeName : String
  kind : LeafKind
  isRange : Bool
  counter : Option String
  countval : Int
  offset : Nat
  maximum : Nat
  deriving DecidableEq

/-- Metadata of one TBranch: name, class name (GetClassName) and the ordered,
nonempty list of leaves. The first leaf is kept separate because the code
asserts its existence and classifies the branch by it. -/
structure TBranch where
  name : String
  className : String
  leaf0 : TLeaf
  moreLeaves : List TLeaf
  deriving DecidableEq

/-- Ordered leaves of a branch, GetListOfLeaves. -/
def TBranch.leaves (b : TBranch) : List TLeaf := b.leaf0 :: b.moreLeaves

/-- Oracle environment for the external collaborators used by PrepareSchema:
RFieldBase::Create (returns the created field, of which only GetValueSize is
relevant, or forwards an error), TClass::GetClass presence, and the platform
pointer width. -/
structure Env where
  createField : String → String → Except String Nat
  classExists : String → Bool
  ptrSize : Nat

/-- Branch classification, line 161: GetNleaves() > 1. -/
def isLeafList (b : TBranch) : Bool := decide (b.leaves.length > 1)

/-- Branch classification, line 162: first leaf IsRange(). -/
def isCountLeaf (b : TBranch) : Bool := b.leaf0.isRange

/-- Branch classification, line 163: first leaf is a TLeafElement. -/
def isClass (b : TBranch) : Bool := b.leaf0.kind == .leafElement

/-- Branch classification, lines 170-172: a plain (non leaf list) TLeafC with
no leaf counter and GetLeafCounter countval equal to 1. -/
def isCString (b : TBranch) : Bool :=
  !isLeafList b && (b.leaf0.kind == .leafC) && b.leaf0.counter.isNone &&
    (b.leaf0.countval == 1)

/-- Per-leaf classification, line 199: GetLeafCounter returned a counter. -/
def isLeafCountArray (l : TLeaf) : Bool := l.counter.isSome

/-- Per-leaf classification, line 200: no counter and countval above 1. -/
def isFixedSizeArray (l : TLeaf) : Bool := l.counter.isNone && decide (l.countval > 1)

/-- Destination field name, lines 205 and 208-209: the branch name, or the
leaf name inside a leaf list. -/
def fieldNameFor (b : TBranch) (l : TLeaf) : String :=
  if isLeafList b then l.name else b.name

/-- Destination field type string, lines 206 and 211-218: the declared leaf
type, overridden for C strings and classes, wrapped for fixed size arrays. -/
def fieldTypeFor (b : TBranch) (l : TLeaf) : String :=
  let t0 := l.typeName
  let t1 := if isCString b then "std::string" else t0
  let t2 := if isClass b then b.className else t1
  if isFixedSizeArray l then "std::array<" ++ t2 ++ "," ++ toString l.countval ++ ">"
  else t2

/-- RImportBranch: branch name and the byte size of the read buffer allocated
once for it (lines 270-272). -/
structure ImportBranch where
  branchName : String
  bufferSize : Nat
  deriving DecidableEq

/-- RImportField: the destination field (name, type, GetValueSize) together
with the buffer ownership and collection membership flags. -/
structure ImportField where
  fieldName : String
  typeName : String
  valueSize : Nat
  ownsFieldBuffer : Bool
  isInUntypedCollection : Bool
  fieldIsClass : Bool
  deriving DecidableEq

/-- Default ImportField, standing for the value-initialized lookup result. -/
def dfltField : ImportField :=
  { fieldName := "", typeName := "", valueSize := 0, ownsFieldBuffer := false,
    isInUntypedCollection := false, fieldIsClass := false }

/-- RImportTransformation: the indices into fImportBranches and fImportFields,
plus the per-record element counter fNum. -/
structure Transformation where
  branchIdx : Nat
  fieldIdx : Nat
  fNum : Nat
  deriving DecidableEq

/-- RImportLeafCountCollection, keyed by the count leaf name: the maximum
element count observed in the source, the member field indexes and the
per-element transformations. The collection model, entry and writer have no
observable state beyond the trace events they generate. -/
structure LeafCountCollection where
  countLeafName : String
  maxLength : Nat
  fieldIdxs : List Nat
  transformations : List Transformation
  deriving DecidableEq

/-- Aggregate schema state built by PrepareSchema: fImportBranches,
fImportFields, fLeafCountCollections and fImportTransformations. -/
structure Schema where
  branches : List ImportBranch
  fields : List ImportField
  collections : List LeafCountCollection
  cstringTransforms : List Transformation
  deriving DecidableEq

/-- ResetSchema: all containers empty. -/
def emptySchema : Schema :=
  { branches := [], fields := [], collections := [], cstringTransforms := [] }

/-- Default LeafCountCollection, the value-initialized state. -/
def dfltColl : LeafCountCollection :=
  { countLeafName := "", maxLength := 0, fieldIdxs := [], transformations := [] }

/-- The std::map operator[] lookup side effect: value-initialize and insert an
entry when the key is missing. The defaults (maxLength 0, empty members) model
a value-initialized RImportLeafCountCollection; the class declaration lives in
the header, which is outside src, and no claim depends on the defaults. -/
def ensureColl (cs : List LeafCountCollection) (name : String) : List LeafCountCollection :=
  if cs.any (fun c => c.countLeafName == name) then cs
  else cs ++ [{ countLeafName := name, maxLength := 0, fieldIdxs := [], transformations := [] }]

/-- The std::map emplace on count leaf registration, lines 179-185: insert
only when the key is missing. -/
def emplaceColl (cs : List LeafCountCollection) (name : String) (maxLen : Nat) :
    List LeafCountCollection :=
  if cs.any (fun c => c.countLeafName == name) then cs
  else cs ++ [{ countLeafName := name, maxLength := maxLen, fieldIdxs := [], transformations := [] }]

/-- Read fMaxLength through the map, value 0 when the key is missing. -/
def lookupMaxLen (cs : List LeafCountCollection) (name : String) : Nat :=
  match cs.find? (fun c => c.countLeafName == name) with
  | some c => c.maxLength
  | none => 0

/-- Update the collection stored under a key, leaving the rest alone. -/
def updateColl (cs : List LeafCountCollection) (name : String)
    (f : LeafCountCollection → LeafCountCollection) : List LeafCountCollection :=
  cs.map (fun c => if c.countLeafName == name then f c else c)

/-- Counter leaf name of a leaf counted array; only read when a counter
exists. -/
def counterName (l : TLeaf) : String := l.counter.getD ""

/-- State threaded through the per-leaf loop of one branch: the running
branchBufferSize, the recordItems accumulated for leaf lists (field name,
type, value size), and the global schema state. -/
structure LeafState where
  bufSize : Nat
  recordItems : List (String × String × Nat)
  sch : Schema

/-- Body of the per-leaf loop, lines 192-261: reject TObject leaves, create
the destination field, compute the branch buffer size for this leaf
(overwriting the previous value, as the code does), and route the field into
the record items, the count leaf collection, or the top level schema. -/
def processLeaf (env : Env) (b : TBranch) (ls : LeafState) (l : TLeaf) :
    Except String LeafState :=
  if l.kind == .leafObject then
    .error ("unsupported: TObject branches, branch: " ++ b.name)
  else
    match env.createField (fieldNameFor b l) (fieldTypeFor b l) with
    | .error e => .error e
    | .ok w =>
      let sch0 := ls.sch
      let step : Nat × Schema :=
        if isCString b then
          (l.maximum,
           { sch0 with cstringTransforms := sch0.cstringTransforms ++
               [{ branchIdx := sch0.branches.length, fieldIdx := sch0.fields.length,
                  fNum := 0 }] })
        else if isClass b then
          (env.ptrSize * l.countval.toNat, sch0)
        else if isLeafCountArray l then
          let cs1 := ensureColl sch0.collections (counterName l)
          (lookupMaxLen cs1 (counterName l) * w, { sch0 with collections := cs1 })
        else
          (l.offset + w, sch0)
      let bufSize := step.1
      let sch1 := step.2
      if isLeafList b then
        .ok { bufSize := bufSize,
              recordItems := ls.recordItems ++ [(fieldNameFor b l, fieldTypeFor b l, w)],
              sch := sch1 }
      else if isLeafCountArray l then
        let fidx := sch1.fields.length
        let bidx := sch1.branches.length
        let cs2 := updateColl (ensureColl sch1.collections (counterName l)) (counterName l)
          (fun c => { c with
                      fieldIdxs := c.fieldIdxs ++ [fidx],
                      transformations := c.transformations ++
                        [{ branchIdx := bidx, fieldIdx := fidx, fNum := 0 }] })
        .ok { bufSize := bufSize, recordItems := ls.recordItems,
              sch := { sch1 with
                       collections := cs2,
                       fields := sch1.fields ++
                         [{ fieldName := fieldNameFor b l, typeName := fieldTypeFor b l,
                            valueSize := w, ownsFieldBuffer := true,
                            isInUntypedCollection := true, fieldIsClass := isClass b }] } }
      else
        .ok { bufSize := bufSize, recordItems := ls.recordItems,
              sch := { sch1 with fields := sch1.fields ++
                         [{ fieldName := fieldNameFor b l, typeName := fieldTypeFor b l,
                            valueSize := w, ownsFieldBuffer := isCString b,
                            isInUntypedCollection := false, fieldIsClass := isClass b }] } }

/-- Fold of processLeaf over the leaves of one branch. -/
def processLeaves (env : Env) (b : TBranch) :
    LeafState → List TLeaf → Except String LeafState
  | ls, [] => .ok ls
  | ls, l :: rest =>
    match processLeaf env b ls l with
    | .error e => .error e
    | .ok ls1 => processLeaves env b ls1 rest

/-- Body of the per-branch loop, lines 156-292: the two leaf list rejections,
count leaf registration, the per-leaf loop, the synthesized record field for
leaf lists, the class metadata check, and the single read-buffer allocation
recorded as the new ImportBranch. -/
def processBranch (env : Env) (sch : Schema) (b : TBranch) : Except String Schema :=
  if isLeafList b && isClass b then
    .error ("unsupported: classes in leaf list, branch " ++ b.name)
  else if isLeafList b && isCountLeaf b then
    .error ("unsupported: count leaf arrays in leaf list, branch " ++ b.name)
  else if isCountLeaf b then
    .ok { sch with collections := emplaceColl sch.collections b.leaf0.name b.leaf0.maximum }
  else
    match processLeaves env b { bufSize := 0, recordItems := [], sch := sch } b.leaves with
    | .error e => .error e
    | .ok ls =>
      let sch1 := ls.sch
      let sch2 :=
        if ls.recordItems.isEmpty then sch1
        else
          -- The RRecordField for a leaf list: its type string is empty (an
          -- untyped record) and its value size is the sum of the member
          -- sizes; compiler padding is ignored since no claim reads it.
          { sch1 with fields := sch1.fields ++
              [{ fieldName := b.name, typeName := "",
                 valueSize := (ls.recordItems.map (fun r => r.2.2)).sum,
                 ownsFieldBuffer := false, isInUntypedCollection := false,
                 fieldIsClass := false }] }
      if isClass b && !env.classExists b.className then
        .error ("unable to load class " ++ b.className ++ " for branch " ++ b.name)
      else
        .ok { sch2 with branches := sch2.branches ++
                [{ branchName := b.name, bufferSize := ls.bufSize }] }

/-- Fold of processBranch over all branches of the source tree. -/
def processBranches (env : Env) : Schema → List TBranch → Except String Schema
  | sch, [] => .ok sch
  | sch, b :: bs =>
    match processBranch env sch b with
    | .error e => .error e
    | .ok sch1 => processBranches env sch1 bs

/-- Projected member fields of one collection, lines 310-320: an RVec typed
field is created for every member via RFieldBase::Create, whose Unwrap raises
the forwarded error on failure. -/
def projectMembers (env : Env) (fields : List ImportField) :
    List Nat → Except String Unit
  | [] => .ok ()
  | i :: is =>
    let f := fields.getD i dfltField
    match env.createField f.fieldName ("ROOT::RVec<" ++ f.typeName ++ ">") with
    | .error e => .error e
    | .ok _ => projectMembers env fields is

/-- Per-collection finalization, lines 294-326: freeze the collection model,
create the collection writer, add the projected member fields and the
projected cardinality field under the count leaf name. -/
def projectColls (env : Env) (fields : List ImportField) :
    List LeafCountCollection → Except String Unit
  | [] => .ok ()
  | c :: cs =>
    match projectMembers env fields c.fieldIdxs with
    | .error e => .error e
    | .ok _ =>
      match env.createField c.countLeafName "ROOT::Experimental::RNTupleCardinality" with
      | .error e => .error e
      | .ok _ => projectColls env fields cs

/-- PrepareSchema, lines 149-343: reset the schema, fold over the branches,
finalize the count leaf collections with their projected fields, freeze the
model and capture the entry (the last two have no observable state here). -/
def prepareSchema (env : Env) (bs : List TBranch) : Except String Schema :=
  match processBranches env emptySchema bs with
  | .error e => .error e
  | .ok sch =>
    match projectColls env sch.fields sch.collections with
    | .error e => .error e
    | .ok _ => .ok sch

/-- Destination-affecting events of one Import invocation, in program order.
Events record the index arguments a reader resolves against the schema:
transform events carry the collection name, the outer record index, the
fImportBranches and fImportFields indices and the element counter fNum that
RLeafArrayTransformation reads with; subFill is one collection writer Fill,
topFill one top level writer Fill, progress one Call of the progress callback
and finish its final Finish. -/
inductive Event where
  | sinkCreated : Event
  | writerCreated : Event
  | getEntry (rec : Nat) : Event
  | transform (coll : String) (rec branchIdx fieldIdx num : Nat) : Event
  | subFill (coll : String) (rec : Nat) : Event
  | stringTransform (rec branchIdx fieldIdx : Nat) : Event
  | topFill (rec : Nat) : Event
  | progress (bytes rec : Nat) : Event
  | finish (bytes total : Nat) : Event
  deriving DecidableEq

/-- Configuration of one Import invocation: the schema environment and the
source branches, the destination state, the record limit fMaxEntries, the
total record count of the source tree, the per-record count leaf values
populated by GetEntry, the zipped bytes performance counter as sampled after
each record and at the end, and the quiet flag. -/
structure ImportCfg where
  env : Env
  branches : List TBranch
  ntupleName : String
  destFileName : String
  destHasKey : Bool
  totalEntries : Nat
  maxEntries : Int
  counts : Nat → String → Int
  zipped : Nat → Nat
  zippedFinal : Nat
  isQuiet : Bool

/-- Effective number of loop iterations, lines 361-365: the total entry count,
lowered to fMaxEntries when that is non-negative and smaller. -/
def effectiveEntries (cfg : ImportCfg) : Nat :=
  if 0 ≤ cfg.maxEntries ∧ cfg.maxEntries < (cfg.totalEntries : Int) then
    cfg.maxEntries.toNat
  else cfg.totalEntries

/-- Advance every element counter by one invocation, line 79. -/
def stepTransforms (ts : List Transformation) : List Transformation :=
  ts.map (fun t => { t with fNum := t.fNum + 1 })

/-- The transform events of one element iteration, lines 372-376: every
registered transformation runs once with its current fNum. -/
def transformEvents (coll : String) (rec : Nat) (ts : List Transformation) : List Event :=
  ts.map (fun t => Event.transform coll rec t.branchIdx t.fieldIdx t.fNum)

/-- The inner element loop of one collection for one record, lines 371-378:
for each of the cnt elements run all transformations (incrementing their
counters) and fill one nested record. -/
def runElems (coll : String) (rec : Nat) :
    Nat → List Transformation → List Event × List Transformation
  | 0, ts => ([], ts)
  | n + 1, ts =>
    let out := runElems coll rec n (stepTransforms ts)
    (transformEvents coll rec ts ++ (Event.subFill coll rec :: out.1), out.2)

/-- ResetEntry over all transformations of a collection, lines 379-380. -/
def resetTransforms (ts : List Transformation) : List Transformation :=
  ts.map (fun t => { t with fNum := 0 })

/-- One collection for one record: read the current count leaf value (an
Int_t, so a loop bound of zero when non-positive), run the element loop, then
reset every element counter. -/
def runColl (cfg : ImportCfg) (rec : Nat) (c : LeafCountCollection) :
    List Event × LeafCountCollection :=
  let cnt := (cfg.counts rec c.countLeafName).toNat
  let out := runElems c.countLeafName rec cnt c.transformations
  (out.1, { c with transformations := resetTransforms out.2 })

/-- All collections for one record, lines 370-381, in container order. -/
def runColls (cfg : ImportCfg) (rec : Nat) :
    List LeafCountCollection → List Event × List LeafCountCollection
  | [] => ([], [])
  | c :: cs =>
    let o := runColl cfg rec c
    let os := runColls cfg rec cs
    (o.1 ++ os.1, o.2 :: os.2)

/-- One iteration of the import loop, lines 367-394: GetEntry, the collection
fan-out, the top level C string transformations (whose ResetEntry is a no-op
on a counter they never advance), the top level Fill, and, unless quiet, one
progress callback Call carrying the sampled byte counter and the loop
index. -/
def recordChunk (cfg : ImportCfg) (cs : List LeafCountCollection)
    (strs : List Transformation) (rec : Nat) : List Event × List LeafCountCollection :=
  let o := runColls cfg rec cs
  ((Event.getEntry rec :: o.1)
     ++ strs.map (fun t => Event.stringTransform rec t.branchIdx t.fieldIdx)
     ++ [Event.topFill rec]
     ++ (if cfg.isQuiet then [] else [Event.progress (cfg.zipped rec) rec]),
   o.2)

/-- The import loop from record index i for n records, threading the
collection element-counter state from record to record. -/
def loopFrom (cfg : ImportCfg) (strs : List Transformation) :
    Nat → Nat → List LeafCountCollection → List Event
  | _, 0, _ => []
  | i, n + 1, cs =>
    let o := recordChunk cfg cs strs i
    o.1 ++ loopFrom cfg strs (i + 1) n o.2

/-- Import, lines 345-399: fail on a destination name collision before
anything else; run PrepareSchema, whose discarded failing result escapes (see
the header comment) before the sink exists; otherwise create the page sink and
the writer, loop over the effective number of records and finally invoke the
Finish callback unless quiet.  The first component is the trace of
destination-affecting events, the second the outcome. -/
def Import (cfg : ImportCfg) : List Event × Except String Unit :=
  if cfg.destHasKey then
    -- The source wraps the name in single quote characters; they are omitted
    -- from the modelled message text.
    ([], .error ("Key " ++ cfg.ntupleName ++ " already exists in file " ++ cfg.destFileName))
  else
    match prepareSchema cfg.env cfg.branches with
    | .error e => ([], .error e)
    | .ok sch =>
      let n := effectiveEntries cfg
      (Event.sinkCreated :: Event.writerCreated ::
         (loopFrom cfg sch.cstringTransforms 0 n sch.collections
           ++ (if cfg.isQuiet then [] else [Event.finish cfg.zippedFinal n])),
       .ok ())

/-- Setup oracle for Create: whether TFile::Open of the source succeeds and
yields no zombie, whether the TTree exists in it, and the same for the
destination file opened in UPDATE mode. -/
structure CreateEnv where
  sourceOpens : Bool
  treeExists : Bool
  destOpens : Bool

/-- Constructed importer state relevant to the claims. -/
structure ImporterHandle where
  ntupleName : String
  destFileName : String
  deriving DecidableEq

/-- SetupDestination, lines 120-130. -/
def SetupDestination (destOpens : Bool) (destFileName : String) : Except String Unit :=
  if destOpens then .ok ()
  else .error ("cannot open dest file " ++ destFileName)

/-- Create from a source file name, lines 83-103: open the source, read the
tree, set up the destination.  The discarded SetupDestination failure escapes
(see the header comment), so the importer is not handed to the caller. -/
def CreateFromFile (cenv : CreateEnv) (sourceFileName treeName destFileName : String) :
    Except String ImporterHandle :=
  if !cenv.sourceOpens then
    .error ("cannot open source file " ++ sourceFileName)
  else if !cenv.treeExists then
    .error ("cannot read TTree " ++ treeName ++ " from " ++ sourceFileName)
  else
    match SetupDestination cenv.destOpens destFileName with
    | .error e => .error e
    | .ok _ => .ok { ntupleName := treeName, destFileName := destFileName }

/-- Create from an in-memory tree, lines 105-118: no source file to open. -/
def CreateFromTree (destOpens : Bool) (treeName destFileName : String) :
    Except String ImporterHandle :=
  match SetupDestination destOpens destFileName with
  | .error e => .error e
  | .ok _ => .ok { ntupleName := treeName, destFileName := destFileName }

/-- An Except value that is a failure. -/
def isFailure : Except String ImporterHandle → Bool
  | .error _ => true
  | .ok _ => false

/-- Branch read-buffer size for one leaf exactly as lines 226-241 compute it:
GetMaximum for a C string, one pointer width per element for a class leaf,
recorded maximum times element width for a leaf counted array, and declared
offset plus element width otherwise. -/
def leafBufSize (env : Env) (cs : List LeafCountCollection) (b : TBranch) (l : TLeaf)
    (w : Nat) : Nat :=
  if isCString b then l.maximum
  else if isClass b then env.ptrSize * l.countval.toNat
  else if isLeafCountArray l then lookupMaxLen cs (counterName l) * w
  else l.offset + w

/-- Branch read-buffer size as claim C7 words it, with no dedicated C string
case: the "otherwise" arm declaredOffset + elementWidth is said to include C
strings. Stated from the claim for comparison against leafBufSize. -/
def claimedBufSize (env : Env) (cs : List LeafCountCollection) (b : TBranch) (l : TLeaf)
    (w : Nat) : Nat :=
  if isClass b then env.ptrSize * l.countval.toNat
  else if isLeafCountArray l then lookupMaxLen cs (counterName l) * w
  else l.offset + w

/-- Last leaf of a branch; for a single leaf branch this is the first leaf.
The per-branch loop leaves the buffer size of the last processed leaf in
branchBufferSize. -/
def lastLeaf (b : TBranch) : TLeaf := b.moreLeaves.getLastD b.leaf0

/-- Record indices of the top level writer Fill calls, in trace order. -/
def topFillRecs (tr : List Event) : List Nat :=
  tr.filterMap (fun e => match e with | .topFill r => some r | _ => none)

/-- Record indices of the GetEntry source reads, in trace order. -/
def getEntryRecs (tr : List Event) : List Nat :=
  tr.filterMap (fun e => match e with | .getEntry r => some r | _ => none)

/-- The (bytes, records) arguments of the periodic progress Call events. -/
def progressPairs (tr : List Event) : List (Nat × Nat) :=
  tr.filterMap (fun e => match e with | .progress b r => some (b, r) | _ => none)

/-- The (bytes, total) arguments of the final Finish events. -/
def finishPairs (tr : List Event) : List (Nat × Nat) :=
  tr.filterMap (fun e => match e with | .finish b t => some (b, t) | _ => none)

/-- Record index an event belongs to; none for the record independent
sink/writer creation and the final Finish. -/
def evRec : Event → Option Nat
  | .getEntry r => some r
  | .transform _ r _ _ _ => some r
  | .subFill _ r => some r
  | .stringTransform r _ _ => some r
  | .topFill r => some r
  | .progress _ r => some r
  | _ => none

/-- Nested record submissions of one collection for one outer record. -/
def isSubFillOf (coll : String) (r : Nat) : Event → Bool
  | .subFill c rec => c == coll && rec == r
  | _ => false

/-- Array element extraction invocations of one collection for one record. -/
def isTransformOf (coll : String) (r : Nat) : Event → Bool
  | .transform c rec _ _ _ => c == coll && rec == r
  | _ => false

/-- Number of nested records one collection emits for one outer record. -/
def subFillCount (tr : List Event) (coll : String) (r : Nat) : Nat :=
  (tr.filter (isSubFillOf coll r)).length

/-- Number of element extraction invocations of one collection for one
record. -/
def transformCount (tr : List Event) (coll : String) (r : Nat) : Nat :=
  (tr.filter (isTransformOf coll r)).length

/-- Length of the projected variable length sequence of a collection for one
record: the projected RVec field owns no storage and aliases the collection,
so its per-record length is the number of nested records filled for that
record. -/
def projectedLen (tr : List Event) (coll : String) (r : Nat) : Nat :=
  subFillCount tr coll r

/-- Sub-collection emission events (element transformations and nested record
fills) of one outer record. -/
def isCollEmitOf (r : Nat) : Event → Bool
  | .transform _ rec _ _ _ => rec == r
  | .subFill _ rec => rec == r
  | _ => false

/-- Sub-collection emission events or the top level fill of one record. -/
def isCollEmitOrTopOf (r : Nat) : Event → Bool
  | .transform _ rec _ _ _ => rec == r
  | .subFill _ rec => rec == r
  | .topFill rec => rec == r
  | _ => false

/-- Top level fills and progress notifications, the interleaving claim C9 is
about. -/
def isTopOrProgress : Event → Bool
  | .topFill _ => true
  | .progress _ _ => true
  | _ => false

/-- Top level fills. -/
def isTopFill : Event → Bool
  | .topFill _ => true
  | _ => false

/-- Everything before the first progress notification. -/
def notProgress : Event → Bool
  | .progress _ _ => false
  | _ => true

/-- Element width a transformation at field index i copies per invocation:
GetValueSize of the field it targets. -/
def fieldWidth (s : Schema) (i : Nat) : Nat := (s.fields.getD i dfltField).valueSize

/-- Every element counter of every collection is at its per-record start
value 0. -/
def allZero (cs : List LeafCountCollection) : Prop :=
  ∀ c ∈ cs, ∀ t ∈ c.transformations, t.fNum = 0

/-- The record independent identity of a collection: its count leaf name and
recorded maximum length. -/
def collShape (c : LeafCountCollection) : String × Nat := (c.countLeafName, c.maxLength)

/-
Concrete instances used by the witnesses and counterexamples. The demo tree
is the end-to-end scenario of the spec: an integer count leaf branch n with
maximum 2, a float array branch a counted by n, plus a C string branch s and
a class-in-leaf-list branch for the failure cases.
-/

/-- Demo oracle environment: every type resolves, with the value sizes of a
64 bit platform. -/
def envDemo : Env :=
  { createField := fun _ t =>
      if t == "std::string" then .ok 32
      else if t == "Int_t" then .ok 4
      else if t == "Float_t" then .ok 4
      else .ok 8,
    classExists := fun _ => true,
    ptrSize := 8 }

/-- Integer count leaf n, maximum observed count 2. -/
def leafN : TLeaf :=
  { name := "n", typeName := "Int_t", kind := .plain, isRange := true,
    counter := none, countval := 1, offset := 0, maximum := 2 }

/-- Float array leaf a counted by n. -/
def leafA : TLeaf :=
  { name := "a", typeName := "Float_t", kind := .plain, isRange := false,
    counter := some "n", countval := 1, offset := 0, maximum := 0 }

/-- Character array leaf s of capacity 1 with maximum observed string length
10: a C string. -/
def leafS : TLeaf :=
  { name := "s", typeName := "Char_t", kind := .leafC, isRange := false,
    counter := none, countval := 1, offset := 0, maximum := 10 }

/-- Class leaf k. -/
def leafK : TLeaf :=
  { name := "k", typeName := "TParticle", kind := .leafElement, isRange := false,
    counter := none, countval := 1, offset := 0, maximum := 0 }

/-- Plain integer leaf x. -/
def leafX : TLeaf :=
  { name := "x", typeName := "Int_t", kind := .plain, isRange := false,
    counter := none, countval := 1, offset := 0, maximum := 0 }

/-- The count leaf branch of the demo tree. -/
def branchN : TBranch := { name := "n", className := "", leaf0 := leafN, moreLeaves := [] }

/-- The counted array branch of the demo tree. -/
def branchA : TBranch := { name := "a", className := "", leaf0 := leafA, moreLeaves := [] }

/-- The C string branch. -/
def branchS : TBranch := { name := "s", className := "", leaf0 := leafS, moreLeaves := [] }

/-- A class leaf inside a two leaf list: the unsupported shape of line 164. -/
def branchBad : TBranch :=
  { name := "bad", className := "TParticle", leaf0 := leafK, moreLeaves := [leafX] }

/-- Demo import configuration over the count leaf tree: 3 source records, no
limit, every record holding one array element, not quiet. -/
def cfgDemo : ImportCfg :=
  { env := envDemo, branches := [branchN, branchA], ntupleName := "t",
    destFileName := "d", destHasKey := false, totalEntries := 3, maxEntries := -1,
    counts := fun _ _ => 1, zipped := fun _ => 0, zippedFinal := 0, isQuiet := false }

/-- The schema PrepareSchema derives for the demo tree. -/
def schDemo : Schema :=
  { branches := [{ branchName := "a", bufferSize := 8 }],
    fields := [{ fieldName := "a", typeName := "Float_t", valueSize := 4,
                 ownsFieldBuffer := true, isInUntypedCollection := true,
                 fieldIsClass := false }],
    collections := [{ countLeafName := "n", maxLength := 2, fieldIdxs := [0],
                      transformations := [{ branchIdx := 0, fieldIdx := 0, fNum := 0 }] }],
    cstringTransforms := [] }

/-- The schema processBranch derives for the single C string branch. -/
def schS : Schema :=
  { branches := [{ branchName := "s", bufferSize := 10 }],
    fields := [{ fieldName := "s", typeName := "std::string", valueSize := 32,
                 ownsFieldBuffer := true, isInUntypedCollection := false,
                 fieldIsClass := false }],
    collections := [],
    cstringTransforms := [{ branchIdx := 0, fieldIdx := 0, fNum := 0 }] }

/-- Demo configuration whose schema preparation fails. -/
def cfgFail : ImportCfg := { cfgDemo with branches := [branchBad] }

/-- Demo configuration with a record limit of 2 out of 3. -/
def cfgLimit : ImportCfg := { cfgDemo with maxEntries := 2 }

/-- Demo configuration where every count leaf value is 0. -/
def cfgZero : ImportCfg := { cfgDemo with counts := fun _ _ => 0 }

/-- Demo configuration with a single source record, for the progress
counterexample. -/
def cfgOne : ImportCfg := { cfgDemo with totalEntries := 1 }

/-
Theorems. Claim theorems carry the claim id in their doc comment; helper
lemmas precede them.
-/

/-- C1: whenever schema preparation fails, Import propagates exactly that
failure and produces no destination effect at all: the trace is empty, so no
sink is created, no writer is opened and no record is submitted. (The failure
escapes from the discarded RResult before the sink construction statement
runs.) -/
theorem import_aborts_on_prepare_failure (cfg : ImportCfg) (e : String)
    (hkey : cfg.destHasKey = false)
    (hprep : prepareSchema cfg.env cfg.branches = .error e) :
    Import cfg = ([], .error e) := by
  simp [Import, hkey, hprep]

/-- Witness for C1: importing a tree whose only branch has a class leaf
inside a two leaf list fails schema preparation, and Import returns that
failure with an empty trace. -/
theorem import_aborts_on_prepare_failure_witness :
    cfgFail.destHasKey = false ∧
    prepareSchema cfgFail.env cfgFail.branches =
      .error "unsupported: classes in leaf list, branch bad" ∧
    Import cfgFail = ([], .error "unsupported: classes in leaf list, branch bad") :=
  ⟨rfl, rfl, import_aborts_on_prepare_failure cfgFail _ rfl rfl⟩

/-- C2: when the destination file cannot be opened, both Create overloads
fail (the discarded SetupDestination failure escapes before the importer is
handed to the caller), whatever the source side does. Create never invokes
schema preparation, which only runs inside Import, so the failure precedes
any preparation. -/
theorem create_fails_when_dest_unopenable (so te : Bool) (s t d : String) :
    isFailure (CreateFromFile
      { sourceOpens := so, treeExists := te, destOpens := false } s t d) = true ∧
    isFailure (CreateFromTree false t d) = true := by
  constructor
  · cases so <;> cases te <;> simp [CreateFromFile, SetupDestination, isFailure]
  · simp [CreateFromTree, SetupDestination, isFailure]

/-- C3: with an object already stored under the target name, Import fails
with the name collision error irrespective of every other part of the
configuration: in particular the result does not depend on the source tree or
on whether schema preparation would succeed, so preparation has not run, and
the trace is empty, so nothing was written. -/
theorem import_name_collision_aborts_first (cfg : ImportCfg) :
    Import { cfg with destHasKey := true } =
      ([], .error ("Key " ++ cfg.ntupleName ++ " already exists in file " ++
        cfg.destFileName)) := by
  simp [Import]

theorem runElems_events_shape (coll : String) (rec : Nat) :
    ∀ (n : Nat) (ts : List Transformation) (e : Event),
      e ∈ (runElems coll rec n ts).1 →
      (∃ b f k, e = Event.transform coll rec b f k) ∨ e = Event.subFill coll rec := by
  intro n
  induction n with
  | zero => intro ts e he; simp [runElems] at he
  | succ n ih =>
    intro ts e he
    simp only [runElems, List.mem_append, List.mem_cons] at he
    rcases he with h | h | h
    · simp only [transformEvents, List.mem_map] at h
      obtain ⟨t, _, rfl⟩ := h
      exact Or.inl ⟨t.branchIdx, t.fieldIdx, t.fNum, rfl⟩
    · exact Or.inr h
    · exact ih (stepTransforms ts) e h

theorem runColls_events_shape (cfg : ImportCfg) (rec : Nat) :
    ∀ (cs : List LeafCountCollection) (e : Event), e ∈ (runColls cfg rec cs).1 →
      ∃ c ∈ cs, ((∃ b f k, e = Event.transform c.countLeafName rec b f k) ∨
        e = Event.subFill c.countLeafName rec) := by
  intro cs
  induction cs with
  | nil => intro e he; simp [runColls] at he
  | cons c cs ih =>
    intro e he
    simp only [runColls, List.mem_append] at he
    rcases he with h | h
    · exact ⟨c, List.mem_cons_self c cs, runElems_events_shape _ _ _ _ _ h⟩
    · obtain ⟨c1, hc1, hsh⟩ := ih e h
      exact ⟨c1, List.mem_cons_of_mem c hc1, hsh⟩

theorem recordChunk_evRec (cfg : ImportCfg) (cs : List LeafCountCollection)
    (strs : List Transformation) (rec : Nat) :
    ∀ e ∈ (recordChunk cfg cs strs rec).1, evRec e = some rec := by
  intro e he
  simp only [recordChunk] at he
  rcases List.mem_append.mp he with h | h
  · rcases List.mem_append.mp h with h | h
    · rcases List.mem_append.mp h with h | h
      · rcases List.mem_cons.mp h with rfl | h
        · rfl
        · rcases runColls_events_shape cfg rec cs e h with
            ⟨c, _, ⟨b, f, k, rfl⟩ | rfl⟩ <;> rfl
      · obtain ⟨t, _, rfl⟩ := List.mem_map.mp h
        rfl
    · rcases List.mem_singleton.mp h with rfl
      rfl
  · rcases hq : cfg.isQuiet with _ | _ <;>
      simp only [hq, Bool.false_eq_true, if_false, if_true] at h
    · rcases List.mem_singleton.mp h with rfl
      rfl
    · exact absurd h (List.not_mem_nil e)

theorem topFillRecs_append (l1 l2 : List Event) :
    topFillRecs (l1 ++ l2) = topFillRecs l1 ++ topFillRecs l2 :=
  List.filterMap_append l1 l2 _

theorem topFillRecs_sink_writer (l : List Event) :
    topFillRecs (Event.sinkCreated :: Event.writerCreated :: l) = topFillRecs l := rfl

theorem getEntryRecs_sink_writer (l : List Event) :
    getEntryRecs (Event.sinkCreated :: Event.writerCreated :: l) = getEntryRecs l := rfl

theorem getEntryRecs_append (l1 l2 : List Event) :
    getEntryRecs (l1 ++ l2) = getEntryRecs l1 ++ getEntryRecs l2 :=
  List.filterMap_append l1 l2 _

theorem topFillRecs_runColls (cfg : ImportCfg) (rec : Nat) (cs : List LeafCountCollection) :
    topFillRecs (runColls cfg rec cs).1 = [] := by
  refine List.filterMap_eq_nil.mpr (fun e he => ?_)
  rcases runColls_events_shape cfg rec cs e he with ⟨c, _, ⟨b, f, k, rfl⟩ | rfl⟩ <;> rfl

theorem getEntryRecs_runColls (cfg : ImportCfg) (rec : Nat) (cs : List LeafCountCollection) :
    getEntryRecs (runColls cfg rec cs).1 = [] := by
  refine List.filterMap_eq_nil.mpr (fun e he => ?_)
  rcases runColls_events_shape cfg rec cs e he with ⟨c, _, ⟨b, f, k, rfl⟩ | rfl⟩ <;> rfl

theorem topFillRecs_recordChunk (cfg : ImportCfg) (cs : List LeafCountCollection)
    (strs : List Transformation) (rec : Nat) :
    topFillRecs (recordChunk cfg cs strs rec).1 = [rec] := by
  simp only [recordChunk, topFillRecs, List.filterMap_cons, List.filterMap_append]
  rw [show (List.filterMap _ (runColls cfg rec cs).1 : List Nat) =
    topFillRecs (runColls cfg rec cs).1 from rfl, topFillRecs_runColls]
  rcases hq : cfg.isQuiet with _ | _ <;>
    simp [List.filterMap_map, Function.comp, List.filterMap_eq_nil]

theorem getEntryRecs_recordChunk (cfg : ImportCfg) (cs : List LeafCountCollection)
    (strs : List Transformation) (rec : Nat) :
    getEntryRecs (recordChunk cfg cs strs rec).1 = [rec] := by
  simp only [recordChunk, getEntryRecs, List.filterMap_cons, List.filterMap_append]
  rw [show (List.filterMap _ (runColls cfg rec cs).1 : List Nat) =
    getEntryRecs (runColls cfg rec cs).1 from rfl, getEntryRecs_runColls]
  rcases hq : cfg.isQuiet with _ | _ <;>
    simp [List.filterMap_map, Function.comp, List.filterMap_eq_nil]

theorem topFillRecs_loopFrom (cfg : ImportCfg) (strs : List Transformation) :
    ∀ (n i : Nat) (cs : List LeafCountCollection),
      topFillRecs (loopFrom cfg strs i n cs) = List.range' i n := by
  intro n
  induction n with
  | zero => intro i cs; rfl
  | succ n ih =>
    intro i cs
    rw [loopFrom, topFillRecs_append, topFillRecs_recordChunk, ih, List.range'_succ]
    rfl

theorem getEntryRecs_loopFrom (cfg : ImportCfg) (strs : List Transformation) :
    ∀ (n i : Nat) (cs : List LeafCountCollection),
      getEntryRecs (loopFrom cfg strs i n cs) = List.range' i n := by
  intro n
  induction n with
  | zero => intro i cs; rfl
  | succ n ih =>
    intro i cs
    rw [loopFrom, getEntryRecs_append, getEntryRecs_recordChunk, ih, List.range'_succ]
    rfl

/-- C4: on a successful setup the import loop reads and submits exactly the
records 0, 1, ..., m-1 of the source, in that order, where m is the total
record count capped by the configured limit when that is non-negative and the
full total when the limit is negative (unbounded). -/
theorem import_record_count_and_order (cfg : ImportCfg) (s : Schema)
    (hkey : cfg.destHasKey = false)
    (hprep : prepareSchema cfg.env cfg.branches = .ok s) :
    topFillRecs (Import cfg).1 = List.range (effectiveEntries cfg) ∧
    getEntryRecs (Import cfg).1 = List.range (effectiveEntries cfg) ∧
    (0 ≤ cfg.maxEntries →
      effectiveEntries cfg = min cfg.maxEntries.toNat cfg.totalEntries) ∧
    (cfg.maxEntries < 0 → effectiveEntries cfg = cfg.totalEntries) := by
  refine ⟨?_, ?_, ?_, ?_⟩
  · simp only [Import, hkey, hprep, Bool.false_eq_true, if_false]
    rw [topFillRecs_sink_writer, topFillRecs_append, topFillRecs_loopFrom,
      List.range_eq_range']
    rcases hq : cfg.isQuiet with _ | _ <;> simp [topFillRecs]
  · simp only [Import, hkey, hprep, Bool.false_eq_true, if_false]
    rw [getEntryRecs_sink_writer, getEntryRecs_append, getEntryRecs_loopFrom,
      List.range_eq_range']
    rcases hq : cfg.isQuiet with _ | _ <;> simp [getEntryRecs]
  · intro h
    unfold effectiveEntries
    split_ifs with hcond <;> omega
  · intro h
    unfold effectiveEntries
    split_ifs with hcond <;> omega

/-- Witness for C4: importing the demo tree with a limit of 2 out of 3
records reads and fills exactly records 0 and 1. -/
theorem import_record_count_and_order_witness :
    cfgLimit.destHasKey = false ∧
    prepareSchema cfgLimit.env cfgLimit.branches = .ok schDemo ∧
    (topFillRecs (Import cfgLimit).1 = List.range (effectiveEntries cfgLimit) ∧
     getEntryRecs (Import cfgLimit).1 = List.range (effectiveEntries cfgLimit) ∧
     (0 ≤ cfgLimit.maxEntries →
       effectiveEntries cfgLimit = min cfgLimit.maxEntries.toNat cfgLimit.totalEntries) ∧
     (cfgLimit.maxEntries < 0 → effectiveEntries cfgLimit = cfgLimit.totalEntries)) :=
  ⟨rfl, rfl, import_record_count_and_order cfgLimit schDemo rfl rfl⟩

theorem isCString_iff (b : TBranch) :
    isCString b = true ↔
      (b.moreLeaves = [] ∧ b.leaf0.kind = .leafC ∧ b.leaf0.counter = none ∧
        b.leaf0.countval = 1) := by
  simp only [isCString, isLeafList, TBranch.leaves, List.length_cons,
    Bool.and_eq_true, Bool.not_eq_true', decide_eq_false_iff_not, beq_iff_eq,
    Option.isNone_iff_eq_none, not_lt]
  constructor
  · rintro ⟨⟨⟨hlen, hk⟩, hc⟩, hv⟩
    refine ⟨List.eq_nil_of_length_eq_zero (by omega), hk, hc, hv⟩
  · rintro ⟨hm, hk, hc, hv⟩
    exact ⟨⟨⟨by simp [hm], hk⟩, hc⟩, hv⟩

theorem isCString_not_class (b : TBranch) (h : isCString b = true) :
    isClass b = false := by
  obtain ⟨_, hk, _, _⟩ := (isCString_iff b).mp h
  simp [isClass, hk]

theorem isCString_not_leafList (b : TBranch) (h : isCString b = true) :
    isLeafList b = false := by
  obtain ⟨hm, _, _, _⟩ := (isCString_iff b).mp h
  simp [isLeafList, TBranch.leaves, hm]

theorem isCString_fieldType (b : TBranch) (h : isCString b = true) :
    fieldTypeFor b b.leaf0 = "std::string" := by
  obtain ⟨hm, hk, hc, hv⟩ := (isCString_iff b).mp h
  simp [fieldTypeFor, h, isCString_not_class b h, isFixedSizeArray, hc, hv]

/-- C6: the classifier marks a branch as holding a C string exactly when the
branch is not a leaf list, its first leaf is a TLeafC, has no leaf counter,
and its fixed capacity is exactly one element; such a branch contributes a
destination field typed std::string (the count leaf route is excluded since a
count leaf branch produces no physical destination field at all). -/
theorem cstring_classification (env : Env) (sch : Schema) (b : TBranch) :
    (isCString b = true ↔
      (b.moreLeaves = [] ∧ b.leaf0.kind = .leafC ∧ b.leaf0.counter = none ∧
        b.leaf0.countval = 1)) ∧
    (isCString b = true → fieldTypeFor b b.leaf0 = "std::string") ∧
    (isCString b = true → isCountLeaf b = false → ∀ sch1,
      processBranch env sch b = .ok sch1 →
      ∃ f, sch1.fields = sch.fields ++ [f] ∧ f.typeName = "std::string") := by
  refine ⟨isCString_iff b, isCString_fieldType b, ?_⟩
  intro h hcount sch1 hok
  obtain ⟨hm, hk, hc, hv⟩ := (isCString_iff b).mp h
  have hll := isCString_not_leafList b h
  have hcl := isCString_not_class b h
  have hleaves : b.leaves = [b.leaf0] := by simp [TBranch.leaves, hm]
  rw [processBranch, hll, hcl, hcount, hleaves] at hok
  simp only [Bool.false_and, Bool.false_eq_true, if_false] at hok
  rw [processLeaves] at hok
  rw [processLeaf] at hok
  have hko : (b.leaf0.kind == LeafKind.leafObject) = false := by simp [hk]
  rw [hko] at hok
  simp only [Bool.false_eq_true, if_false] at hok
  rcases hcf : env.createField (fieldNameFor b b.leaf0) (fieldTypeFor b b.leaf0) with e | w <;>
    rw [hcf] at hok
  · exact absurd hok (by simp)
  · have hlca : isLeafCountArray b.leaf0 = false := by simp [isLeafCountArray, hc]
    rw [h, hll, hlca] at hok
    simp only [if_true, Bool.false_eq_true, if_false] at hok
    rw [processLeaves] at hok
    simp only [List.isEmpty_nil, if_true, hcl, Bool.false_and, Bool.false_eq_true,
      if_false, Except.ok.injEq] at hok
    subst hok
    exact ⟨_, rfl, isCString_fieldType b h⟩

/-- Witness for C6: the capacity one TLeafC branch is classified as a C
string and processBranch derives a std::string field for it. -/
theorem cstring_classification_witness :
    isCString branchS = true ∧ isCountLeaf branchS = false ∧
    processBranch envDemo emptySchema branchS = .ok schS ∧
    (∃ f, schS.fields = emptySchema.fields ++ [f] ∧ f.typeName = "std::string") :=
  ⟨rfl, rfl, rfl,
    (cstring_classification envDemo emptySchema branchS).2.2 rfl rfl schS rfl⟩

theorem lookupMaxLen_ensure (cs : List LeafCountCollection) (n m : String) :
    lookupMaxLen (ensureColl cs n) m = lookupMaxLen cs m := by
  unfold ensureColl
  split_ifs with h
  · rfl
  · unfold lookupMaxLen
    rw [List.find?_append]
    rcases hf : cs.find? (fun c => c.countLeafName == m) with _ | c <;> rw [hf]
    · simp only [Option.none_or]
      rw [List.find?_singleton]
      split_ifs with hd <;> rfl
    · rfl

theorem lookupMaxLen_update (cs : List LeafCountCollection) (n m : String)
    (f : LeafCountCollection → LeafCountCollection)
    (hname : ∀ c, (f c).countLeafName = c.countLeafName)
    (hmax : ∀ c, (f c).maxLength = c.maxLength) :
    lookupMaxLen (updateColl cs n f) m = lookupMaxLen cs m := by
  unfold updateColl lookupMaxLen
  rw [List.find?_map]
  have hp : ((fun c => c.countLeafName == m) ∘
      (fun c => if c.countLeafName == n then f c else c)) =
      (fun c => c.countLeafName == m) := by
    funext c
    simp only [Function.comp]
    split_ifs with h
    · rw [hname]
    · rfl
  rw [hp]
  rcases hf : cs.find? (fun c => c.countLeafName == m) with _ | c <;> rw [hf]
  · rfl
  · simp only [Option.map_some']
    split_ifs with h
    · exact hmax c
    · rfl

theorem lookupMaxLen_addMember (cs : List LeafCountCollection) (n m : String) (fi bi : Nat) :
    lookupMaxLen (updateColl cs n (fun c =>
      { c with fieldIdxs := c.fieldIdxs ++ [fi],
               transformations := c.transformations ++
                 [{ branchIdx := bi, fieldIdx := fi, fNum := 0 }] })) m =
    lookupMaxLen cs m :=
  lookupMaxLen_update cs n m _ (fun _ => rfl) (fun _ => rfl)

theorem leafBufSize_congr (env : Env) (cs cs2 : List LeafCountCollection) (b : TBranch)
    (l : TLeaf) (w : Nat) (h : ∀ m, lookupMaxLen cs m = lookupMaxLen cs2 m) :
    leafBufSize env cs b l w = leafBufSize env cs2 b l w := by
  unfold leafBufSize
  split_ifs <;> simp [h]

theorem processLeaf_preserves (env : Env) (b : TBranch) (ls ls1 : LeafState) (l : TLeaf)
    (h : processLeaf env b ls l = .ok ls1) :
    ls1.sch.branches = ls.sch.branches ∧
    (∀ m, lookupMaxLen ls1.sch.collections m = lookupMaxLen ls.sch.collections m) := by
  rw [processLeaf] at h
  by_cases hko : (l.kind == LeafKind.leafObject) = true
  · rw [hko] at h; simp at h
  · rw [Bool.not_eq_true] at hko
    rw [hko] at h
    simp only [Bool.false_eq_true, if_false] at h
    rcases hcf : env.createField (fieldNameFor b l) (fieldTypeFor b l) with e | w <;>
      rw [hcf] at h
    · simp at h
    · simp only at h
      split_ifs at h <;>
        simp only [Except.ok.injEq] at h <;>
        subst h <;>
        refine ⟨rfl, fun m => ?_⟩ <;>
        simp only [lookupMaxLen_addMember, lookupMaxLen_ensure]

theorem processLeaf_bufSize (env : Env) (b : TBranch) (ls ls1 : LeafState) (l : TLeaf)
    (h : processLeaf env b ls l = .ok ls1) :
    ∃ w, env.createField (fieldNameFor b l) (fieldTypeFor b l) = .ok w ∧
      ls1.bufSize = leafBufSize env ls.sch.collections b l w := by
  rw [processLeaf] at h
  by_cases hko : (l.kind == LeafKind.leafObject) = true
  · rw [hko] at h; simp at h
  · rw [Bool.not_eq_true] at hko
    rw [hko] at h
    simp only [Bool.false_eq_true, if_false] at h
    rcases hcf : env.createField (fieldNameFor b l) (fieldTypeFor b l) with e | w <;>
      rw [hcf] at h
    · simp at h
    · refine ⟨w, rfl, ?_⟩
      simp only at h
      unfold leafBufSize
      split_ifs at h <;>
        simp only [Except.ok.injEq] at h <;>
        subst h <;>
        simp_all [lookupMaxLen_ensure]

theorem processLeaves_last (env : Env) (b : TBranch) :
    ∀ (rest : List TLeaf) (l : TLeaf) (ls out : LeafState),
      processLeaves env b ls (l :: rest) = .ok out →
      ∃ w, env.createField (fieldNameFor b (rest.getLastD l))
          (fieldTypeFor b (rest.getLastD l)) = .ok w ∧
        out.bufSize = leafBufSize env ls.sch.collections b (rest.getLastD l) w ∧
        out.sch.branches = ls.sch.branches ∧
        (∀ m, lookupMaxLen out.sch.collections m = lookupMaxLen ls.sch.collections m) := by
  intro rest
  induction rest with
  | nil =>
    intro l ls out h
    rw [processLeaves] at h
    rcases hpl : processLeaf env b ls l with e | ls1 <;> rw [hpl] at h
    · simp at h
    · simp only [processLeaves, Except.ok.injEq] at h
      subst h
      obtain ⟨w, hw, hbuf⟩ := processLeaf_bufSize env b ls ls1 l hpl
      obtain ⟨hbr, hlk⟩ := processLeaf_preserves env b ls ls1 l hpl
      exact ⟨w, hw, hbuf, hbr, hlk⟩
  | cons l2 rest2 ih =>
    intro l ls out h
    rw [processLeaves] at h
    rcases hpl : processLeaf env b ls l with e | ls1 <;> rw [hpl] at h
    · simp at h
    · obtain ⟨w, hw, hbuf, hbr, hlk⟩ := ih l2 ls1 out h
      obtain ⟨hbr0, hlk0⟩ := processLeaf_preserves env b ls ls1 l hpl
      rw [List.getLastD_cons]
      refine ⟨w, hw, ?_, hbr.trans hbr0, fun m => (hlk m).trans (hlk0 m)⟩
      rw [hbuf]
      exact leafBufSize_congr env _ _ b _ w hlk0

/-- C7 as stated is false on the code: corrected. The read-buffer size is:
GetMaximum for a C string branch (not declaredOffset + elementWidth as the
claim says); one pointer width per element for a class leaf; recorded maximum
element count times element width for a leaf counted array; and declared
offset plus element width in the remaining cases, the size being the one
computed for the last leaf of the branch; the branch record carrying it is
appended exactly once. This theorem proves the amended formula. -/
theorem buffer_size_amended (env : Env) (sch sch1 : Schema) (b : TBranch)
    (hcount : isCountLeaf b = false)
    (hok : processBranch env sch b = .ok sch1) :
    ∃ w, env.createField (fieldNameFor b (lastLeaf b))
        (fieldTypeFor b (lastLeaf b)) = .ok w ∧
      sch1.branches = sch.branches ++
        [{ branchName := b.name,
           bufferSize := leafBufSize env sch.collections b (lastLeaf b) w }] := by
  rw [processBranch] at hok
  by_cases h1 : (isLeafList b && isClass b) = true
  · rw [h1] at hok; simp at hok
  · rw [Bool.not_eq_true] at h1
    rw [h1] at hok
    simp only [Bool.false_eq_true, if_false] at hok
    by_cases h2 : (isLeafList b && isCountLeaf b) = true
    · rw [h2] at hok; simp at hok
    · rw [Bool.not_eq_true] at h2
      rw [h2, hcount] at hok
      simp only [Bool.false_eq_true, if_false] at hok
      rw [TBranch.leaves] at hok
      rcases hpl : processLeaves env b { bufSize := 0, recordItems := [], sch := sch }
          (b.leaf0 :: b.moreLeaves) with e | ls <;> rw [hpl] at hok
      · simp at hok
      · obtain ⟨w, hw, hbuf, hbr, _⟩ := processLeaves_last env b b.moreLeaves b.leaf0 _ ls hpl
        refine ⟨w, hw, ?_⟩
        by_cases h3 : (isClass b && !env.classExists b.className) = true
        · rw [h3] at hok; simp at hok
        · rw [Bool.not_eq_true] at h3
          rw [h3] at hok
          simp only [Bool.false_eq_true, if_false, Except.ok.injEq] at hok
          subst hok
          rcases hri : ls.recordItems.isEmpty with _ | _ <;>
            simp only [hri, if_false, if_true, Bool.false_eq_true] <;>
            rw [hbr, hbuf] <;>
            rfl

/-- Counterexample for C7 as stated: for the C string branch the code
allocates a read buffer of GetMaximum = 10 bytes, while the claim formula
declaredOffset + elementWidth gives 0 + 32 = 32. -/
theorem buffer_size_claim_counterexample :
    (prepareSchema envDemo [branchS]).map Schema.branches =
      .ok [{ branchName := "s", bufferSize := 10 }] ∧
    envDemo.createField (fieldNameFor branchS (lastLeaf branchS))
      (fieldTypeFor branchS (lastLeaf branchS)) = .ok 32 ∧
    claimedBufSize envDemo [] branchS (lastLeaf branchS) 32 = 32 ∧
    (10 : Nat) ≠ 32 := ⟨rfl, rfl, rfl, by decide⟩

/-- Witness for the amended C7: on the C string branch the single appended
branch record carries the amended size. -/
theorem buffer_size_amended_witness :
    isCountLeaf branchS = false ∧
    processBranch envDemo emptySchema branchS = .ok schS ∧
    (∃ w, envDemo.createField (fieldNameFor branchS (lastLeaf branchS))
        (fieldTypeFor branchS (lastLeaf branchS)) = .ok w ∧
      schS.branches = emptySchema.branches ++
        [{ branchName := branchS.name,
           bufferSize := leafBufSize envDemo emptySchema.collections branchS
             (lastLeaf branchS) w }]) :=
  ⟨rfl, rfl, buffer_size_amended envDemo emptySchema schS branchS rfl rfl⟩

theorem import_trace_ok (cfg : ImportCfg) (s : Schema)
    (hkey : cfg.destHasKey = false)
    (hprep : prepareSchema cfg.env cfg.branches = .ok s) :
    (Import cfg).1 = Event.sinkCreated :: Event.writerCreated ::
      (loopFrom cfg s.cstringTransforms 0 (effectiveEntries cfg) s.collections ++
        (if cfg.isQuiet then [] else
          [Event.finish cfg.zippedFinal (effectiveEntries cfg)])) := by
  simp [Import, hkey, hprep]

theorem filter_nil_of_all_false {p : Event → Bool} {l : List Event}
    (h : ∀ e ∈ l, p e = false) : l.filter p = [] := by
  induction l with
  | nil => rfl
  | cons a l ih =>
    rw [List.filter_cons_of_neg]
    · exact ih (fun e he => h e (List.mem_cons_of_mem a he))
    · simp [h a (List.mem_cons_self a l)]

theorem loopFrom_filter_nil (cfg : ImportCfg) (strs : List Transformation)
    (p : Event → Bool)
    (hp : ∀ (cs : List LeafCountCollection) (rec : Nat),
      ∀ e ∈ (recordChunk cfg cs strs rec).1, p e = false) :
    ∀ (n i : Nat) (cs : List LeafCountCollection),
      (loopFrom cfg strs i n cs).filter p = [] := by
  intro n
  induction n with
  | zero => intro i cs; rfl
  | succ n ih =>
    intro i cs
    rw [loopFrom, List.filter_append, filter_nil_of_all_false (hp cs i), ih]
    rfl

theorem runColls_events_count_pos (cfg : ImportCfg) (rec : Nat) :
    ∀ (cs : List LeafCountCollection) (e : Event), e ∈ (runColls cfg rec cs).1 →
      ∃ c ∈ cs, ((∃ b f k, e = Event.transform c.countLeafName rec b f k) ∨
        e = Event.subFill c.countLeafName rec) ∧
        0 < (cfg.counts rec c.countLeafName).toNat := by
  intro cs
  induction cs with
  | nil => intro e he; simp [runColls] at he
  | cons c cs ih =>
    intro e he
    simp only [runColls] at he
    rcases List.mem_append.mp he with h | h
    · simp only [runColl] at h
      rcases hcnt : (cfg.counts rec c.countLeafName).toNat with _ | m <;> rw [hcnt] at h
      · simp [runElems] at h
      · exact ⟨c, List.mem_cons_self c cs,
          runElems_events_shape _ _ _ _ _ h, by omega⟩
    · obtain ⟨c1, hc1, hsh, hpos⟩ := ih e h
      exact ⟨c1, List.mem_cons_of_mem c hc1, hsh, hpos⟩

theorem pred_false_of_other_rec (e : Event) (rec j : Nat) (name : String)
    (hev : evRec e = some rec) (hne : rec ≠ j) :
    isSubFillOf name j e = false ∧ isTransformOf name j e = false := by
  cases e <;> simp only [evRec, Option.some.injEq] at hev <;>
    simp_all [isSubFillOf, isTransformOf]

theorem recordChunk_no_zero_coll (cfg : ImportCfg) (cs : List LeafCountCollection)
    (strs : List Transformation) (rec j : Nat) (name : String)
    (hz : cfg.counts j name = 0) :
    ∀ e ∈ (recordChunk cfg cs strs rec).1,
      isSubFillOf name j e = false ∧ isTransformOf name j e = false := by
  intro e he
  by_cases hrec : rec = j
  · subst hrec
    simp only [recordChunk] at he
    rcases List.mem_append.mp he with h | h
    · rcases List.mem_append.mp h with h | h
      · rcases List.mem_append.mp h with h | h
        · rcases List.mem_cons.mp h with rfl | h
          · exact ⟨rfl, rfl⟩
          · obtain ⟨c, hc, hsh, hpos⟩ := runColls_events_count_pos cfg rec cs e h
            have hcn : (c.countLeafName == name) = false := by
              rcases hbe : c.countLeafName == name with _ | _
              · rfl
              · exfalso
                have hceq : c.countLeafName = name := by simpa using hbe
                rw [hceq, hz] at hpos
                simp at hpos
            rcases hsh with ⟨b1, f1, k1, rfl⟩ | rfl <;>
              simp [isSubFillOf, isTransformOf, hcn]
        · obtain ⟨t, _, rfl⟩ := List.mem_map.mp h
          exact ⟨rfl, rfl⟩
      · rcases List.mem_singleton.mp h with rfl
        exact ⟨rfl, rfl⟩
    · rcases hq : cfg.isQuiet with _ | _ <;>
        simp only [hq, Bool.false_eq_true, if_false, if_true] at h
      · rcases List.mem_singleton.mp h with rfl
        exact ⟨rfl, rfl⟩
      · exact absurd h (List.not_mem_nil e)
  · exact pred_false_of_other_rec e rec j name
      (recordChunk_evRec cfg cs strs rec e he) hrec

theorem import_filter_nil (cfg : ImportCfg) (s : Schema) (p : Event → Bool)
    (hkey : cfg.destHasKey = false)
    (hprep : prepareSchema cfg.env cfg.branches = .ok s)
    (h1 : p Event.sinkCreated = false) (h2 : p Event.writerCreated = false)
    (h3 : p (Event.finish cfg.zippedFinal (effectiveEntries cfg)) = false)
    (hp : ∀ (cs : List LeafCountCollection) (rec : Nat),
      ∀ e ∈ (recordChunk cfg cs s.cstringTransforms rec).1, p e = false) :
    (Import cfg).1.filter p = [] := by
  rw [import_trace_ok cfg s hkey hprep]
  rw [List.filter_cons_of_neg (by simp [h1]), List.filter_cons_of_neg (by simp [h2]),
    List.filter_append, loopFrom_filter_nil cfg s.cstringTransforms p hp]
  rcases hq : cfg.isQuiet with _ | _ <;> simp [h3]

/-- C5: a count leaf value of 0 for some record makes the import loop emit no
nested record for that collection for that record, invoke no array element
extraction Transformation, and leaves the projected sequence for that record
of length 0. -/
theorem zero_count_emits_nothing (cfg : ImportCfg) (s : Schema)
    (c : LeafCountCollection) (r : Nat)
    (hkey : cfg.destHasKey = false)
    (hprep : prepareSchema cfg.env cfg.branches = .ok s)
    (hc : c ∈ s.collections)
    (hz : cfg.counts r c.countLeafName = 0) :
    subFillCount (Import cfg).1 c.countLeafName r = 0 ∧
    transformCount (Import cfg).1 c.countLeafName r = 0 ∧
    projectedLen (Import cfg).1 c.countLeafName r = 0 := by
  have hsub : (Import cfg).1.filter (isSubFillOf c.countLeafName r) = [] :=
    import_filter_nil cfg s _ hkey hprep rfl rfl rfl
      (fun cs rec e he =>
        (recordChunk_no_zero_coll cfg cs s.cstringTransforms rec r c.countLeafName hz e he).1)
  have htr : (Import cfg).1.filter (isTransformOf c.countLeafName r) = [] :=
    import_filter_nil cfg s _ hkey hprep rfl rfl rfl
      (fun cs rec e he =>
        (recordChunk_no_zero_coll cfg cs s.cstringTransforms rec r c.countLeafName hz e he).2)
  refine ⟨?_, ?_, ?_⟩
  · rw [subFillCount, hsub]; rfl
  · rw [transformCount, htr]; rfl
  · rw [projectedLen, subFillCount, hsub]; rfl

/-- Witness for C5: in the demo import with every count value 0, record 1
gets no nested fill, no extraction and an empty projected sequence for the
collection of count leaf n. -/
theorem zero_count_emits_nothing_witness :
    cfgZero.destHasKey = false ∧
    prepareSchema cfgZero.env cfgZero.branches = .ok schDemo ∧
    schDemo.collections.getD 0 dfltColl ∈ schDemo.collections ∧
    cfgZero.counts 1 (schDemo.collections.getD 0 dfltColl).countLeafName = 0 ∧
    (subFillCount (Import cfgZero).1
        (schDemo.collections.getD 0 dfltColl).countLeafName 1 = 0 ∧
     transformCount (Import cfgZero).1
        (schDemo.collections.getD 0 dfltColl).countLeafName 1 = 0 ∧
     projectedLen (Import cfgZero).1
        (schDemo.collections.getD 0 dfltColl).countLeafName 1 = 0) :=
  ⟨rfl, rfl, by simp [schDemo, dfltColl], rfl,
    zero_count_emits_nothing cfgZero schDemo _ 1 rfl rfl
      (by simp [schDemo, dfltColl]) rfl⟩

theorem evRec_of_emitOrTop (r : Nat) (e : Event) (h : isCollEmitOrTopOf r e = true) :
    evRec e = some r := by
  cases e <;> simp [isCollEmitOrTopOf] at h <;> simp [evRec, h]

theorem evRec_of_emit (r : Nat) (e : Event) (h : isCollEmitOf r e = true) :
    evRec e = some r := by
  cases e <;> simp [isCollEmitOf] at h <;> simp [evRec, h]

theorem loopFrom_filter_outside (cfg : ImportCfg) (strs : List Transformation)
    (p : Event → Bool) (r : Nat)
    (hpr : ∀ e, p e = true → evRec e = some r) :
    ∀ (n i : Nat) (cs : List LeafCountCollection), (r < i ∨ i + n ≤ r) →
      (loopFrom cfg strs i n cs).filter p = [] := by
  intro n
  induction n with
  | zero => intro i cs h; rfl
  | succ n ih =>
    intro i cs hbound
    rw [loopFrom, List.filter_append]
    rw [filter_nil_of_all_false, ih (i + 1) _ (by omega)]
    · rfl
    · intro e he
      rcases hpe : p e with _ | _
      · rfl
      · exfalso
        have h1 := hpr e hpe
        have h2 := recordChunk_evRec cfg cs strs i e he
        rw [h1] at h2
        have : r = i := by exact Option.some.inj h2
        omega

theorem runColls_filter_emit_eq (cfg : ImportCfg) (r j : Nat)
    (cs : List LeafCountCollection) :
    (runColls cfg r cs).1.filter (isCollEmitOrTopOf j) =
      (runColls cfg r cs).1.filter (isCollEmitOf j) := by
  apply List.filter_congr
  intro e he
  rcases runColls_events_shape cfg r cs e he with ⟨c, _, ⟨b, f, k, rfl⟩ | rfl⟩ <;> rfl

theorem filter_false_nil (l : List Event) (p : Event → Bool)
    (h : ∀ e ∈ l, p e = false) : l.filter p = [] :=
  filter_nil_of_all_false h

theorem recordChunk_filter_fill (cfg : ImportCfg) (cs : List LeafCountCollection)
    (strs : List Transformation) (r : Nat) :
    (recordChunk cfg cs strs r).1.filter (isCollEmitOrTopOf r) =
      (runColls cfg r cs).1.filter (isCollEmitOf r) ++ [Event.topFill r] ∧
    (recordChunk cfg cs strs r).1.filter (isCollEmitOf r) =
      (runColls cfg r cs).1.filter (isCollEmitOf r) := by
  have hstr : ∀ (p : Event → Bool), (∀ rb fb, p (Event.stringTransform r rb fb) = false) →
      (strs.map (fun t => Event.stringTransform r t.branchIdx t.fieldIdx)).filter p = [] :=
    fun p hp => filter_false_nil _ _ (fun e he => by
      obtain ⟨t, _, rfl⟩ := List.mem_map.mp he
      exact hp _ _)
  have hif : ∀ (p : Event → Bool), p (Event.progress (cfg.zipped r) r) = false →
      (if cfg.isQuiet then ([] : List Event) else
        [Event.progress (cfg.zipped r) r]).filter p = [] := by
    intro p hp
    rcases hq : cfg.isQuiet with _ | _ <;>
      simp only [hq, Bool.false_eq_true, if_false, if_true]
    · rw [List.filter_cons_of_neg (by simp [hp])]
      rfl
    · rfl
  constructor
  · simp only [recordChunk]
    rw [List.filter_append, List.filter_append, List.filter_append,
      List.filter_cons_of_neg
        (show ¬isCollEmitOrTopOf r (Event.getEntry r) = true by simp [isCollEmitOrTopOf]),
      runColls_filter_emit_eq, hstr _ (fun rb fb => rfl), hif _ rfl,
      List.filter_cons_of_pos
        (show isCollEmitOrTopOf r (Event.topFill r) = true by simp [isCollEmitOrTopOf])]
    simp
  · simp only [recordChunk]
    rw [List.filter_append, List.filter_append, List.filter_append,
      List.filter_cons_of_neg
        (show ¬isCollEmitOf r (Event.getEntry r) = true by simp [isCollEmitOf]),
      hstr _ (fun rb fb => rfl), hif _ rfl,
      filter_false_nil [Event.topFill r] _ (fun e he => by
        rcases List.mem_singleton.mp he with rfl
        rfl)]
    simp

theorem loopFrom_fill_order (cfg : ImportCfg) (strs : List Transformation) :
    ∀ (n i : Nat) (cs : List LeafCountCollection) (r : Nat), i ≤ r → r < i + n →
      (loopFrom cfg strs i n cs).filter (isCollEmitOrTopOf r) =
        (loopFrom cfg strs i n cs).filter (isCollEmitOf r) ++ [Event.topFill r] := by
  intro n
  induction n with
  | zero => intro i cs r h1 h2; omega
  | succ n ih =>
    intro i cs r h1 h2
    rw [loopFrom, List.filter_append, List.filter_append]
    by_cases hir : i = r
    · subst hir
      rw [(recordChunk_filter_fill cfg cs strs i).1,
        (recordChunk_filter_fill cfg cs strs i).2]
      rw [loopFrom_filter_outside cfg strs _ i (evRec_of_emitOrTop i) n (i + 1) _
        (Or.inl (by omega))]
      rw [loopFrom_filter_outside cfg strs _ i (evRec_of_emit i) n (i + 1) _
        (Or.inl (by omega))]
      simp
    · have hlt : i < r := by omega
      rw [filter_false_nil (recordChunk cfg cs strs i).1 (isCollEmitOrTopOf r)
        (fun e he => by
          rcases hpe : isCollEmitOrTopOf r e with _ | _
          · rfl
          · exfalso
            have h3 := evRec_of_emitOrTop r e hpe
            have h4 := recordChunk_evRec cfg cs strs i e he
            rw [h3] at h4
            exact absurd (Option.some.inj h4) (by omega))]
      rw [filter_false_nil (recordChunk cfg cs strs i).1 (isCollEmitOf r)
        (fun e he => by
          rcases hpe : isCollEmitOf r e with _ | _
          · rfl
          · exfalso
            have h3 := evRec_of_emit r e hpe
            have h4 := recordChunk_evRec cfg cs strs i e he
            rw [h3] at h4
            exact absurd (Option.some.inj h4) (by omega))]
      rw [ih (i + 1) _ r (by omega) (by omega)]
      simp

/-- C8: for every record of a successful import, the filter of the trace to
that record's collection emission events and its top level fill puts the top
level fill last: every element extraction and every nested record submission
of that record happens before the outer record is submitted to the writer. -/
theorem subfills_before_topfill (cfg : ImportCfg) (s : Schema) (r : Nat)
    (hkey : cfg.destHasKey = false)
    (hprep : prepareSchema cfg.env cfg.branches = .ok s)
    (hr : r < effectiveEntries cfg) :
    (Import cfg).1.filter (isCollEmitOrTopOf r) =
      (Import cfg).1.filter (isCollEmitOf r) ++ [Event.topFill r] := by
  rw [import_trace_ok cfg s hkey hprep]
  rw [List.filter_cons_of_neg
      (show ¬isCollEmitOrTopOf r Event.sinkCreated = true by simp [isCollEmitOrTopOf]),
    List.filter_cons_of_neg
      (show ¬isCollEmitOrTopOf r Event.writerCreated = true by simp [isCollEmitOrTopOf]),
    List.filter_cons_of_neg
      (show ¬isCollEmitOf r Event.sinkCreated = true by simp [isCollEmitOf]),
    List.filter_cons_of_neg
      (show ¬isCollEmitOf r Event.writerCreated = true by simp [isCollEmitOf]),
    List.filter_append, List.filter_append]
  have hfin : ∀ (p : Event → Bool), p (Event.finish cfg.zippedFinal (effectiveEntries cfg)) = false →
      (if cfg.isQuiet then ([] : List Event) else
        [Event.finish cfg.zippedFinal (effectiveEntries cfg)]).filter p = [] := by
    intro p hp
    rcases hq : cfg.isQuiet with _ | _ <;>
      simp only [hq, Bool.false_eq_true, if_false, if_true]
    · rw [List.filter_cons_of_neg (by simp [hp])]; rfl
    · rfl
  rw [hfin _ rfl, hfin _ rfl]
  rw [loopFrom_fill_order cfg s.cstringTransforms (effectiveEntries cfg) 0 s.collections r
    (by omega) (by omega)]
  simp

/-- Witness for C8: in the demo import, record 1's nested fill precedes its
top level fill. -/
theorem subfills_before_topfill_witness :
    cfgDemo.destHasKey = false ∧
    prepareSchema cfgDemo.env cfgDemo.branches = .ok schDemo ∧
    1 < effectiveEntries cfgDemo ∧
    (Import cfgDemo).1.filter (isCollEmitOrTopOf 1) =
      (Import cfgDemo).1.filter (isCollEmitOf 1) ++ [Event.topFill 1] :=
  ⟨rfl, rfl, by decide,
    subfills_before_topfill cfgDemo schDemo 1 rfl rfl (by decide)⟩

theorem runColls_filter_topOrProgress (cfg : ImportCfg) (r : Nat)
    (cs : List LeafCountCollection) :
    (runColls cfg r cs).1.filter isTopOrProgress = [] :=
  filter_false_nil _ _ (fun e he => by
    rcases runColls_events_shape cfg r cs e he with ⟨c, _, ⟨b, f, k, rfl⟩ | rfl⟩ <;> rfl)

theorem recordChunk_filter_topOrProgress (cfg : ImportCfg)
    (cs : List LeafCountCollection) (strs : List Transformation) (rec : Nat)
    (hq : cfg.isQuiet = false) :
    (recordChunk cfg cs strs rec).1.filter isTopOrProgress =
      [Event.topFill rec, Event.progress (cfg.zipped rec) rec] := by
  simp only [recordChunk, hq, Bool.false_eq_true, if_false]
  rw [List.filter_append, List.filter_append, List.filter_append,
    List.filter_cons_of_neg
      (show ¬isTopOrProgress (Event.getEntry rec) = true by simp [isTopOrProgress]),
    runColls_filter_topOrProgress,
    filter_false_nil (strs.map (fun t => Event.stringTransform rec t.branchIdx t.fieldIdx)) _
      (fun e he => by obtain ⟨t, _, rfl⟩ := List.mem_map.mp he; rfl),
    List.filter_cons_of_pos (show isTopOrProgress (Event.topFill rec) = true by rfl),
    List.filter_cons_of_pos
      (show isTopOrProgress (Event.progress (cfg.zipped rec) rec) = true by rfl)]
  simp

theorem loopFrom_filter_topOrProgress (cfg : ImportCfg) (strs : List Transformation)
    (hq : cfg.isQuiet = false) :
    ∀ (n i : Nat) (cs : List LeafCountCollection),
      (loopFrom cfg strs i n cs).filter isTopOrProgress =
        List.join ((List.range' i n).map
          (fun r => [Event.topFill r, Event.progress (cfg.zipped r) r])) := by
  intro n
  induction n with
  | zero => intro i cs; rfl
  | succ n ih =>
    intro i cs
    rw [loopFrom, List.filter_append, recordChunk_filter_topOrProgress cfg cs strs i hq,
      ih, List.range'_succ]
    rfl

theorem loopFrom_mem_chunk (cfg : ImportCfg) (strs : List Transformation) :
    ∀ (n i : Nat) (cs : List LeafCountCollection) (e : Event),
      e ∈ loopFrom cfg strs i n cs →
      ∃ cs1 rec, e ∈ (recordChunk cfg cs1 strs rec).1 := by
  intro n
  induction n with
  | zero => intro i cs e he; simp [loopFrom] at he
  | succ n ih =>
    intro i cs e he
    rw [loopFrom] at he
    rcases List.mem_append.mp he with h | h
    · exact ⟨cs, i, h⟩
    · exact ih (i + 1) _ e h

theorem loopFrom_no_finish (cfg : ImportCfg) (strs : List Transformation)
    (n i : Nat) (cs : List LeafCountCollection) :
    finishPairs (loopFrom cfg strs i n cs) = [] := by
  refine List.filterMap_eq_nil.mpr (fun e he => ?_)
  obtain ⟨cs1, rec, hc⟩ := loopFrom_mem_chunk cfg strs n i cs e he
  have hev := recordChunk_evRec cfg cs1 strs rec e hc
  cases e <;> simp [evRec] at hev <;> rfl

/-- C9 as stated is false on the code: corrected. After submitting record
index r, the periodic notification carries the loop index r as its record
count, which is one less than the number of records already submitted to the
writer; the final notification does carry the total number of records
written. In the filtered subtrace of fills and notifications, every progress
event directly follows its fill and repeats that fill's zero-based index. -/
theorem progress_reports_loop_index (cfg : ImportCfg) (s : Schema)
    (hkey : cfg.destHasKey = false) (hq : cfg.isQuiet = false)
    (hprep : prepareSchema cfg.env cfg.branches = .ok s) :
    (Import cfg).1.filter isTopOrProgress =
      List.join ((List.range (effectiveEntries cfg)).map
        (fun r => [Event.topFill r, Event.progress (cfg.zipped r) r])) ∧
    finishPairs (Import cfg).1 = [(cfg.zippedFinal, effectiveEntries cfg)] := by
  constructor
  · rw [import_trace_ok cfg s hkey hprep]
    rw [List.filter_cons_of_neg (show ¬isTopOrProgress Event.sinkCreated = true by simp [isTopOrProgress]),
      List.filter_cons_of_neg (show ¬isTopOrProgress Event.writerCreated = true by simp [isTopOrProgress]),
      List.filter_append, loopFrom_filter_topOrProgress cfg s.cstringTransforms hq,
      List.range_eq_range']
    simp only [hq, Bool.false_eq_true, if_false]
    rw [List.filter_cons_of_neg
      (show ¬isTopOrProgress (Event.finish cfg.zippedFinal (effectiveEntries cfg)) = true by
        simp [isTopOrProgress])]
    simp
  · rw [import_trace_ok cfg s hkey hprep]
    rw [show finishPairs (Event.sinkCreated :: Event.writerCreated :: (loopFrom cfg
        s.cstringTransforms 0 (effectiveEntries cfg) s.collections ++
        (if cfg.isQuiet then [] else
          [Event.finish cfg.zippedFinal (effectiveEntries cfg)]))) =
      finishPairs (loopFrom cfg s.cstringTransforms 0 (effectiveEntries cfg) s.collections ++
        (if cfg.isQuiet then [] else
          [Event.finish cfg.zippedFinal (effectiveEntries cfg)])) from rfl]
    rw [finishPairs, List.filterMap_append]
    rw [show List.filterMap _ (loopFrom cfg s.cstringTransforms 0 (effectiveEntries cfg)
        s.collections) = finishPairs (loopFrom cfg s.cstringTransforms 0
        (effectiveEntries cfg) s.collections) from rfl]
    rw [loopFrom_no_finish]
    simp only [hq, Bool.false_eq_true, if_false]
    rfl

/-- Counterexample for C9 as stated: in a one record import, the first
periodic notification is emitted after one record has been submitted (one top
level fill precedes it in the trace) yet it reports a record count of 0. -/
theorem progress_claim_counterexample :
    (((Import cfgOne).1.takeWhile notProgress).filter isTopFill).length = 1 ∧
    progressPairs (Import cfgOne).1 = [(0, 0)] ∧
    (0 : Nat) ≠ 1 := ⟨rfl, rfl, by decide⟩

/-- Witness for the amended C9: the demo import's notification subtrace pairs
every fill of record r with a notification reporting r, and the final
notification reports the 3 records written. -/
theorem progress_reports_loop_index_witness :
    cfgDemo.destHasKey = false ∧ cfgDemo.isQuiet = false ∧
    prepareSchema cfgDemo.env cfgDemo.branches = .ok schDemo ∧
    ((Import cfgDemo).1.filter isTopOrProgress =
      List.join ((List.range (effectiveEntries cfgDemo)).map
        (fun r => [Event.topFill r, Event.progress (cfgDemo.zipped r) r])) ∧
     finishPairs (Import cfgDemo).1 = [(cfgDemo.zippedFinal, effectiveEntries cfgDemo)]) :=
  ⟨rfl, rfl, rfl, progress_reports_loop_index cfgDemo schDemo rfl rfl rfl⟩

theorem allZero_ensure (cs : List LeafCountCollection) (n : String)
    (h : allZero cs) : allZero (ensureColl cs n) := by
  unfold ensureColl
  split_ifs with hc
  · exact h
  · intro c hm
    rcases List.mem_append.mp hm with hm | hm
    · exact h c hm
    · rcases List.mem_singleton.mp hm with rfl
      intro t ht
      simp at ht

theorem allZero_emplace (cs : List LeafCountCollection) (n : String) (ml : Nat)
    (h : allZero cs) : allZero (emplaceColl cs n ml) := by
  unfold emplaceColl
  split_ifs with hc
  · exact h
  · intro c hm
    rcases List.mem_append.mp hm with hm | hm
    · exact h c hm
    · rcases List.mem_singleton.mp hm with rfl
      intro t ht
      simp at ht

theorem allZero_addMember (cs : List LeafCountCollection) (n : String) (fi bi : Nat)
    (h : allZero cs) :
    allZero (updateColl cs n (fun c =>
      { c with fieldIdxs := c.fieldIdxs ++ [fi],
               transformations := c.transformations ++
                 [{ branchIdx := bi, fieldIdx := fi, fNum := 0 }] })) := by
  intro c hm
  unfold updateColl at hm
  obtain ⟨c0, hc0, heq⟩ := List.mem_map.mp hm
  intro t ht
  by_cases hname : (c0.countLeafName == n) = true
  · rw [if_pos hname] at heq
    subst heq
    rcases List.mem_append.mp ht with ht | ht
    · exact h c0 hc0 t ht
    · rcases List.mem_singleton.mp ht with rfl
      rfl
  · rw [if_neg hname] at heq
    subst heq
    exact h c0 hc0 t ht

theorem processLeaf_allZero (env : Env) (b : TBranch) (ls ls1 : LeafState) (l : TLeaf)
    (h : processLeaf env b ls l = .ok ls1)
    (ha : allZero ls.sch.collections) : allZero ls1.sch.collections := by
  rw [processLeaf] at h
  by_cases hko : (l.kind == LeafKind.leafObject) = true
  · rw [hko] at h; simp at h
  · rw [Bool.not_eq_true] at hko
    rw [hko] at h
    simp only [Bool.false_eq_true, if_false] at h
    rcases hcf : env.createField (fieldNameFor b l) (fieldTypeFor b l) with e | w <;>
      rw [hcf] at h
    · simp at h
    · simp only at h
      split_ifs at h <;>
        simp only [Except.ok.injEq] at h <;>
        subst h <;>
        first
          | exact ha
          | exact allZero_ensure _ _ ha
          | exact allZero_addMember _ _ _ _ (allZero_ensure _ _ ha)
          | exact allZero_addMember _ _ _ _ (allZero_ensure _ _ (allZero_ensure _ _ ha))

theorem processLeaves_allZero (env : Env) (b : TBranch) :
    ∀ (leaves : List TLeaf) (ls out : LeafState),
      processLeaves env b ls leaves = .ok out →
      allZero ls.sch.collections → allZero out.sch.collections := by
  intro leaves
  induction leaves with
  | nil =>
    intro ls out h ha
    simp only [processLeaves, Except.ok.injEq] at h
    subst h
    exact ha
  | cons l rest ih =>
    intro ls out h ha
    rw [processLeaves] at h
    rcases hpl : processLeaf env b ls l with e | ls1 <;> rw [hpl] at h
    · simp at h
    · exact ih ls1 out h (processLeaf_allZero env b ls ls1 l hpl ha)

theorem processBranch_allZero (env : Env) (sch sch1 : Schema) (b : TBranch)
    (h : processBranch env sch b = .ok sch1)
    (ha : allZero sch.collections) : allZero sch1.collections := by
  rw [processBranch] at h
  by_cases h1 : (isLeafList b && isClass b) = true
  · rw [h1] at h; simp at h
  · rw [Bool.not_eq_true] at h1
    rw [h1] at h
    simp only [Bool.false_eq_true, if_false] at h
    by_cases h2 : (isLeafList b && isCountLeaf b) = true
    · rw [h2] at h; simp at h
    · rw [Bool.not_eq_true] at h2
      rw [h2] at h
      simp only [Bool.false_eq_true, if_false] at h
      by_cases h3 : isCountLeaf b = true
      · rw [h3] at h
        simp only [if_true, Except.ok.injEq] at h
        subst h
        exact allZero_emplace _ _ _ ha
      · rw [Bool.not_eq_true] at h3
        rw [h3] at h
        simp only [Bool.false_eq_true, if_false] at h
        rcases hpl : processLeaves env b { bufSize := 0, recordItems := [], sch := sch }
            b.leaves with e | ls <;> rw [hpl] at h
        · simp at h
        · have hz := processLeaves_allZero env b b.leaves _ ls hpl ha
          by_cases h4 : (isClass b && !env.classExists b.className) = true
          · rw [h4] at h; simp at h
          · rw [Bool.not_eq_true] at h4
            rw [h4] at h
            simp only [Bool.false_eq_true, if_false, Except.ok.injEq] at h
            subst h
            rcases hri : ls.recordItems.isEmpty with _ | _ <;>
              simp only [hri, Bool.false_eq_true, if_false, if_true] <;>
              exact hz

theorem processBranches_allZero (env : Env) :
    ∀ (bs : List TBranch) (sch sch1 : Schema),
      processBranches env sch bs = .ok sch1 →
      allZero sch.collections → allZero sch1.collections := by
  intro bs
  induction bs with
  | nil =>
    intro sch sch1 h ha
    simp only [processBranches, Except.ok.injEq] at h
    subst h
    exact ha
  | cons b bs ih =>
    intro sch sch1 h ha
    rw [processBranches] at h
    rcases hpb : processBranch env sch b with e | sch2 <;> rw [hpb] at h
    · simp at h
    · exact ih sch2 sch1 h (processBranch_allZero env sch sch2 b hpb ha)

theorem prepareSchema_allZero (env : Env) (bs : List TBranch) (s : Schema)
    (h : prepareSchema env bs = .ok s) : allZero s.collections := by
  rw [prepareSchema] at h
  rcases hpb : processBranches env emptySchema bs with e | sch <;> rw [hpb] at h
  · simp at h
  · have hred : (match projectColls env sch.fields sch.collections with
      | Except.error e => (Except.error e : Except String Schema)
      | Except.ok _ => Except.ok sch) = Except.ok s := h
    rcases hpc : projectColls env sch.fields sch.collections with e | u <;> rw [hpc] at hred
    · simp at hred
    · simp only [Except.ok.injEq] at hred
      subst hred
      exact processBranches_allZero env bs emptySchema sch hpb
        (fun c hc => by simp [emptySchema] at hc)

theorem runColls_shape (cfg : ImportCfg) (rec : Nat) :
    ∀ (cs : List LeafCountCollection),
      (runColls cfg rec cs).2.map collShape = cs.map collShape := by
  intro cs
  induction cs with
  | nil => rfl
  | cons c cs ih =>
    simp only [runColls, List.map_cons]
    rw [ih]
    rfl

theorem runColls_allZero (cfg : ImportCfg) (rec : Nat) :
    ∀ (cs : List LeafCountCollection), allZero (runColls cfg rec cs).2 := by
  intro cs
  induction cs with
  | nil => intro c hc; simp [runColls] at hc
  | cons c cs ih =>
    intro c1 hc1
    simp only [runColls] at hc1
    rcases List.mem_cons.mp hc1 with rfl | h
    · intro t ht
      simp only [runColl, resetTransforms] at ht
      obtain ⟨t0, _, rfl⟩ := List.mem_map.mp ht
      rfl
    · exact ih c1 h

theorem runElems_num_lt (coll : String) (rec : Nat) :
    ∀ (n : Nat) (ts : List Transformation) (B : Nat),
      (∀ t ∈ ts, t.fNum + n ≤ B) →
      ∀ b f num, Event.transform coll rec b f num ∈ (runElems coll rec n ts).1 →
        num < B := by
  intro n
  induction n with
  | zero => intro ts B hB b f num h; simp [runElems] at h
  | succ n ih =>
    intro ts B hB b f num h
    simp only [runElems, List.mem_append, List.mem_cons] at h
    rcases h with h | h | h
    · simp only [transformEvents, List.mem_map] at h
      obtain ⟨t, ht, heq⟩ := h
      have hnum : t.fNum = num := by
        injection heq
      have := hB t ht
      omega
    · exact absurd h (by simp)
    · refine ih (stepTransforms ts) B ?_ b f num h
      intro t1 ht1
      simp only [stepTransforms, List.mem_map] at ht1
      obtain ⟨t, ht, rfl⟩ := ht1
      have := hB t ht
      simp only []
      omega

theorem runColls_transform_bound (cfg : ImportCfg) (rec : Nat) :
    ∀ (cs : List LeafCountCollection), allZero cs →
      ∀ (coll : String) (r b f num : Nat),
        Event.transform coll r b f num ∈ (runColls cfg rec cs).1 →
        ∃ c2 ∈ cs, c2.countLeafName = coll ∧ r = rec ∧
          num < (cfg.counts rec coll).toNat := by
  intro cs
  induction cs with
  | nil => intro ha coll r b f num h; simp [runColls] at h
  | cons c cs ih =>
    intro ha coll r b f num h
    simp only [runColls] at h
    rcases List.mem_append.mp h with h | h
    · simp only [runColl] at h
      rcases runElems_events_shape c.countLeafName rec
          ((cfg.counts rec c.countLeafName).toNat) c.transformations _ h with
        ⟨b1, f1, k1, heq⟩ | heq
      · have hc : c.countLeafName = coll ∧ r = rec ∧ b = b1 ∧ f = f1 ∧ num = k1 := by
          injection heq with e1 e2 e3 e4 e5
          exact ⟨e1.symm, e2, e3, e4, e5⟩
        obtain ⟨hc1, hc2, _, _, _⟩ := hc
        refine ⟨c, List.mem_cons_self c cs, hc1, hc2, ?_⟩
        rw [← hc1]
        refine runElems_num_lt c.countLeafName rec ((cfg.counts rec c.countLeafName).toNat)
          c.transformations ((cfg.counts rec c.countLeafName).toNat) ?_ b f num ?_
        · intro t ht
          rw [ha c (List.mem_cons_self c cs) t ht]
          omega
        · rw [← hc1, hc2] at h
          exact h
      · exact absurd heq (by simp)
    · obtain ⟨c2, hc2, hrest⟩ := ih (fun c1 hc1 => ha c1 (List.mem_cons_of_mem c hc1))
        coll r b f num h
      exact ⟨c2, List.mem_cons_of_mem c hc2, hrest⟩

theorem recordChunk_transform_mem (cfg : ImportCfg) (cs : List LeafCountCollection)
    (strs : List Transformation) (rec : Nat) (coll : String) (r b f num : Nat)
    (h : Event.transform coll r b f num ∈ (recordChunk cfg cs strs rec).1) :
    Event.transform coll r b f num ∈ (runColls cfg rec cs).1 := by
  simp only [recordChunk] at h
  rcases List.mem_append.mp h with h | h
  · rcases List.mem_append.mp h with h | h
    · rcases List.mem_append.mp h with h | h
      · rcases List.mem_cons.mp h with heq | h
        · exact absurd heq (by simp)
        · exact h
      · obtain ⟨t, _, heq⟩ := List.mem_map.mp h
        exact absurd heq (by simp)
    · rcases List.mem_singleton.mp h with heq
      exact absurd heq (by simp)
  · rcases hq : cfg.isQuiet with _ | _ <;>
      simp only [hq, Bool.false_eq_true, if_false, if_true] at h
    · rcases List.mem_singleton.mp h with heq
      exact absurd heq (by simp)
    · exact absurd h (List.not_mem_nil _)

theorem loopFrom_transform_bound (cfg : ImportCfg) (strs : List Transformation)
    (cs0 : List LeafCountCollection) :
    ∀ (n i : Nat) (cs : List LeafCountCollection), allZero cs →
      cs.map collShape = cs0.map collShape →
      ∀ (coll : String) (r b f num : Nat),
        Event.transform coll r b f num ∈ loopFrom cfg strs i n cs →
        ∃ c ∈ cs0, c.countLeafName = coll ∧ num < (cfg.counts r coll).toNat := by
  intro n
  induction n with
  | zero => intro i cs ha hs coll r b f num h; simp [loopFrom] at h
  | succ n ih =>
    intro i cs ha hs coll r b f num h
    rw [loopFrom] at h
    rcases List.mem_append.mp h with h | h
    · have hmem := recordChunk_transform_mem cfg cs strs i coll r b f num h
      obtain ⟨c2, hc2, hname, hrec, hlt⟩ := runColls_transform_bound cfg i cs ha
        coll r b f num hmem
      have hshape : collShape c2 ∈ cs0.map collShape := by
        rw [← hs]
        exact List.mem_map_of_mem collShape hc2
      obtain ⟨c, hc, hcs⟩ := List.mem_map.mp hshape
      refine ⟨c, hc, ?_, ?_⟩
      · have : c.countLeafName = c2.countLeafName := congrArg Prod.fst hcs
        rw [this, hname]
      · subst hrec
        exact hlt
    · exact ih (i + 1) _ (runColls_allZero cfg i cs)
        ((runColls_shape cfg i cs).trans hs) coll r b f num h

/-- C10: under the precondition that no record's count leaf value exceeds the
maximum recorded at schema preparation time, every array element extraction
reads the byte range from num times the element width to (num + 1) times the
element width, which lies inside a buffer of maxLength times the element
width — the size the planner allocates for a leaf counted array branch. The
code performs no runtime bounds check, so the property is conditional on the
precondition. -/
theorem leaf_array_reads_in_bounds (cfg : ImportCfg) (s : Schema)
    (hkey : cfg.destHasKey = false)
    (hprep : prepareSchema cfg.env cfg.branches = .ok s)
    (hpre : ∀ (r : Nat) (c : LeafCountCollection), c ∈ s.collections →
      (cfg.counts r c.countLeafName).toNat ≤ c.maxLength) :
    ∀ (coll : String) (r b f num : Nat),
      Event.transform coll r b f num ∈ (Import cfg).1 →
      ∃ c ∈ s.collections, c.countLeafName = coll ∧
        num * fieldWidth s f + fieldWidth s f ≤ c.maxLength * fieldWidth s f := by
  intro coll r b f num hmem
  rw [import_trace_ok cfg s hkey hprep] at hmem
  rcases List.mem_cons.mp hmem with heq | hmem
  · exact absurd heq (by simp)
  rcases List.mem_cons.mp hmem with heq | hmem
  · exact absurd heq (by simp)
  rcases List.mem_append.mp hmem with hmem | hmem
  · obtain ⟨c, hc, hname, hlt⟩ := loopFrom_transform_bound cfg s.cstringTransforms
      s.collections (effectiveEntries cfg) 0 s.collections
      (prepareSchema_allZero cfg.env cfg.branches s hprep) rfl coll r b f num hmem
    refine ⟨c, hc, hname, ?_⟩
    have hle := hpre r c hc
    rw [hname] at hle
    have hnum : num + 1 ≤ c.maxLength := by omega
    calc num * fieldWidth s f + fieldWidth s f
        = (num + 1) * fieldWidth s f := by ring
      _ ≤ c.maxLength * fieldWidth s f := Nat.mul_le_mul_right _ hnum
  · rcases hq : cfg.isQuiet with _ | _ <;>
      simp only [hq, Bool.false_eq_true, if_false, if_true] at hmem
    · rcases List.mem_singleton.mp hmem with heq
      exact absurd heq (by simp)
    · exact absurd hmem (List.not_mem_nil _)

/-- Witness for C10: in the demo import every count value is 1, below the
recorded maximum 2, and every extraction of the collection of count leaf n
reads inside the 2 element buffer. -/
theorem leaf_array_reads_in_bounds_witness :
    cfgDemo.destHasKey = false ∧
    prepareSchema cfgDemo.env cfgDemo.branches = .ok schDemo ∧
    (∀ (r : Nat) (c : LeafCountCollection), c ∈ schDemo.collections →
      (cfgDemo.counts r c.countLeafName).toNat ≤ c.maxLength) ∧
    (∀ (coll : String) (r b f num : Nat),
      Event.transform coll r b f num ∈ (Import cfgDemo).1 →
      ∃ c ∈ schDemo.collections, c.countLeafName = coll ∧
        num * fieldWidth schDemo f + fieldWidth schDemo f ≤
          c.maxLength * fieldWidth schDemo f) :=
  ⟨rfl, rfl,
    fun r c hc => by
      rcases List.mem_singleton.mp hc with rfl
      exact (show ((1 : Int)).toNat ≤ 2 by decide),
    leaf_array_reads_in_bounds cfgDemo schDemo rfl rfl
      (fun r c hc => by
        rcases List.mem_singleton.mp hc with rfl
        exact (show ((1 : Int)).toNat ≤ 2 by decide))⟩

end RNTupleImporter
